import Mathlib

/-!
# Verification of the remit-lens comparison engine

Shallow embedding of `src/remit/compare.py` over exact rationals.

Python floats are modelled as `ℚ`; Python's `round(x, n)` is modelled by
`roundTo n` (round to the nearest multiple of `10⁻ⁿ`, using Mathlib's
`round` for the tie-breaking; ties at exact half-multiples do not occur in
the facts proved below, and every statement uses the single model
consistently on both sides). The mid-market rate, resolved by a network
call in the source (`get_mid_market_rate`), is passed to `compare` as an
explicit parameter standing for its resolved value.
-/

namespace RemitLens

/-- Model of Python `round(x, n)` on exact rationals: round `x` to the
nearest multiple of `10 ^ (-n)`. -/
def roundTo (n : ℕ) (x : ℚ) : ℚ := (round (x * 10 ^ n) : ℚ) / 10 ^ n

/-- Truncation toward zero, the behaviour of Python's `int()` on a float. -/
def pyInt (q : ℚ) : ℤ := if q < 0 then ⌈q⌉ else ⌊q⌋

/-- Predicate `isSubstrList needle hay`: `needle` occurs as a contiguous run in
`hay`; the list-of-characters form of Python's `needle in hay` on
strings. -/
def isSubstrList (needle : List Char) : List Char → Bool
  | [] => needle.isEmpty
  | c :: rest => List.isPrefixOf needle (c :: rest) || isSubstrList needle rest

/-- Python's substring test `needle in hay`. -/
def strContains (hay needle : String) : Bool := isSubstrList needle.toList hay.toList

/-- A single provider's quote for a transfer (`Quote` dataclass in
`compare.py`; the `retrieved_at` timestamp is omitted as no computation
reads it). -/
structure Quote where
  provider : String
  send_currency : String
  receive_currency : String
  send_amount : ℚ
  receive_amount : ℚ
  fee : ℚ
  exchange_rate : ℚ
  mid_market_rate : ℚ
  spread_percent : ℚ
  transfer_time : String
  delivery_method : String
  estimated : Bool := true
  url : String := ""
  deriving DecidableEq

/-- Property `Quote.true_cost_percent`: total cost as a percentage of the send
amount, fee percentage plus spread, rounded to 2 decimals. -/
def Quote.true_cost_percent (q : Quote) : ℚ :=
  let fee_percent := if 0 < q.send_amount then q.fee / q.send_amount * 100 else 0
  roundTo 2 (fee_percent + q.spread_percent)

/-- Property `Quote.kes_per_dollar_effective`: effective rate including the fee. -/
def Quote.kes_per_dollar_effective (q : Quote) : ℚ :=
  if q.send_amount ≤ 0 then 0
  else
    let net_send := q.send_amount - q.fee
    if 0 < net_send then roundTo 2 (q.receive_amount / net_send) else 0

/-- Python's `min(xs, key=k)`: the first element attaining the minimal
key, `none` on the empty list. -/
def minByKey {α β : Type} [LinearOrder β] (k : α → β) : List α → Option α
  | [] => none
  | x :: xs => some (xs.foldl (fun best y => if k y < k best then y else best) x)

/-- Python's `max(xs, key=k)`: the first element attaining the maximal
key, `none` on the empty list. -/
def maxByKey {α β : Type} [LinearOrder β] (k : α → β) : List α → Option α
  | [] => none
  | x :: xs => some (xs.foldl (fun best y => if k best < k y then y else best) x)

/-- The transfer-time ordering table of `Comparison.fastest`: instant 0,
minutes 1, "1-3 hours" 2, hours 3, "1-3 days" 4, days 5, with default 99
for an unrecognized bucket (`order.get(..., 99)`). -/
def timeOrder (t : String) : ℕ :=
  if t = "instant" then 0
  else if t = "minutes" then 1
  else if t = "1-3 hours" then 2
  else if t = "hours" then 3
  else if t = "1-3 days" then 4
  else if t = "days" then 5
  else 99

/-- Result of comparing multiple providers (`Comparison` dataclass;
`retrieved_at` omitted as no computation reads it). -/
structure Comparison where
  send_currency : String
  receive_currency : String
  send_amount : ℚ
  mid_market_rate : ℚ
  quotes : List Quote
  deriving DecidableEq

/-- View `Comparison.best_rate`: quote with the highest `receive_amount`,
`None` when there are no quotes. -/
def Comparison.best_rate (c : Comparison) : Option Quote :=
  if c.quotes.isEmpty then none
  else maxByKey (fun q => q.receive_amount) c.quotes

/-- View `Comparison.fastest`: quote minimal under `timeOrder` on its
transfer-time bucket, `None` when there are no quotes. -/
def Comparison.fastest (c : Comparison) : Option Quote :=
  if c.quotes.isEmpty then none
  else minByKey (fun q => timeOrder q.transfer_time) c.quotes

/-- View `Comparison.most_trusted`: best true cost among quotes whose
`delivery_method` contains `"M-Pesa"` (a Python substring test); falls
back to `best_rate` when none match. -/
def Comparison.most_trusted (c : Comparison) : Option Quote :=
  let mpesa_quotes := c.quotes.filter (fun q => strContains q.delivery_method "M-Pesa")
  if mpesa_quotes.isEmpty then c.best_rate
  else minByKey (fun q => q.true_cost_percent) mpesa_quotes

/-- The comparison relation of `ranked()`: ascending `true_cost_percent`. -/
def costLE (a b : Quote) : Prop := a.true_cost_percent ≤ b.true_cost_percent

instance : DecidableRel costLE := fun a b =>
  inferInstanceAs (Decidable (a.true_cost_percent ≤ b.true_cost_percent))

/-- Method `Comparison.ranked()`: Python's stable `sorted` by `true_cost_percent`
ascending, modelled by insertion sort (stable, same sorted output). -/
def Comparison.ranked (c : Comparison) : List Quote :=
  List.insertionSort costLE c.quotes

/-- One provider's entry in the `_PROVIDER_PROFILES` rate table. -/
structure ProviderProfile where
  spread_pct : ℚ
  fee_type : String
  fee_pct : ℚ
  fee_fixed : ℚ
  time : String
  delivery : List String
  url_template : String
  notes : String
  deriving DecidableEq

/-- The static provider rate table `_PROVIDER_PROFILES`, in its source
(insertion) order, which Python's `dict` preserves. -/
def PROVIDER_PROFILES : List (String × ProviderProfile) := [
  ("Wise", {
    spread_pct := 0.55
    fee_type := "percent+fixed"
    fee_pct := 0.41
    fee_fixed := 0.0
    time := "minutes"
    delivery := ["M-Pesa", "Bank deposit"]
    url_template := "https://wise.com/send#payInMethod=CARD&sendAmount={amount}&sourceCurrency={from}&targetCurrency=KES"
    notes := "Best rate, M-Pesa delivery, slightly slower than instant" }),
  ("Remitly", {
    spread_pct := 1.2
    fee_type := "tiered"
    fee_pct := 0.0
    fee_fixed := 3.99
    time := "instant"
    delivery := ["M-Pesa", "Bank deposit"]
    url_template := "https://www.remitly.com/us/en/kenya"
    notes := "Instant to M-Pesa. Economy tier is cheaper but slower." }),
  ("WorldRemit", {
    spread_pct := 1.8
    fee_type := "fixed"
    fee_pct := 0.0
    fee_fixed := 3.99
    time := "minutes"
    delivery := ["M-Pesa", "Bank deposit", "Cash pickup"]
    url_template := "https://www.worldremit.com/en/send-money/to-kenya"
    notes := "Wider network, cash pickup at major towns" }),
  ("Western Union", {
    spread_pct := 3.5
    fee_type := "tiered"
    fee_pct := 0.0
    fee_fixed := 5.00
    time := "minutes"
    delivery := ["M-Pesa", "Cash pickup", "Bank deposit"]
    url_template := "https://www.westernunion.com/us/en/send-money/app/start"
    notes := "High spread; useful mainly for cash pickup in remote areas" }),
  ("Sendwave", {
    spread_pct := 1.0
    fee_type := "zero"
    fee_pct := 0.0
    fee_fixed := 0.0
    time := "instant"
    delivery := ["M-Pesa"]
    url_template := "https://www.sendwave.com/"
    notes := "Zero fee, instant M-Pesa. Spread slightly wider than Wise." }),
  ("Mukuru", {
    spread_pct := 2.1
    fee_type := "fixed"
    fee_pct := 0.0
    fee_fixed := 4.50
    time := "1-3 hours"
    delivery := ["Cash pickup", "Bank deposit"]
    url_template := "https://www.mukuru.com/ke/"
    notes := "Strong East Africa footprint; popular for cash collection" }),
  ("LemFi", {
    spread_pct := 0.8
    fee_type := "percent"
    fee_pct := 0.5
    fee_fixed := 0.0
    time := "minutes"
    delivery := ["M-Pesa", "Bank deposit"]
    url_template := "https://lemfi.com/"
    notes := "Newer provider; competitive rates for diaspora Africans" })]

/-- Substitution of the integer-truncated send amount for the amount
placeholder, and the source currency code for the from placeholder, in a
provider's URL template (the source's `str.format` call). -/
def formatUrl (template : String) (amount : ℚ) (fromCur : String) : String :=
  (template.replace "{amount}" (toString (pyInt amount))).replace "{from}" fromCur

/-- The fee computation of `compare`'s per-provider loop, by fee model:
zero, percent of send amount, percent plus fixed, or (fixed / tiered) the
flat fee. -/
def feeOf (p : ProviderProfile) (send_amount : ℚ) : ℚ :=
  if p.fee_type = "zero" then 0
  else if p.fee_type = "percent" then send_amount * p.fee_pct / 100
  else if p.fee_type = "percent+fixed" then send_amount * p.fee_pct / 100 + p.fee_fixed
  else p.fee_fixed

/-- The body of `compare`'s per-provider loop: the fee computation by fee
model, the provider's spread-discounted rate, the net send and receive
amounts, and the assembled `Quote` (the spec's Quote Builder). -/
def buildQuote (name : String) (p : ProviderProfile) (send_amount : ℚ)
    (from_currency to_currency : String) (mid_rate : ℚ) : Quote :=
  let fee : ℚ := feeOf p send_amount
  let their_rate := mid_rate * (1 - p.spread_pct / 100)
  let net_send := send_amount - fee
  let receive_amount := if 0 < net_send then net_send * their_rate else 0
  { provider := name
    send_currency := from_currency
    receive_currency := to_currency
    send_amount := send_amount
    receive_amount := roundTo 2 receive_amount
    fee := roundTo 2 fee
    exchange_rate := roundTo 4 their_rate
    mid_market_rate := roundTo 4 mid_rate
    spread_percent := roundTo 2 p.spread_pct
    transfer_time := p.time
    delivery_method := String.intercalate ", " p.delivery
    estimated := true
    url := formatUrl p.url_template send_amount from_currency }

/-- Resolution `active_providers = providers or list(...keys())`: an
absent or empty (falsy) caller list falls back to the full catalog. -/
def active_providers (providers : Option (List String)) : List String :=
  match providers with
  | none => PROVIDER_PROFILES.map Prod.fst
  | some l => if l = [] then PROVIDER_PROFILES.map Prod.fst else l

/-- The quote-collection loop of `compare`: one quote per active name
found in the catalog; names absent from the catalog are skipped
(`continue`), which is the `none` case of the `filterMap`. -/
def quotesFor (send_amount : ℚ) (from_currency to_currency : String) (mid_rate : ℚ)
    (names : List String) : List Quote :=
  names.filterMap fun name =>
    (PROVIDER_PROFILES.lookup name).map fun p =>
      buildQuote name p send_amount from_currency to_currency mid_rate

/-- The comparison engine `compare`. The source resolves the mid-market
rate by calling `get_mid_market_rate` (a network call with a static
fallback); here `mid_rate` is that resolved value, passed in. Raising
`ValueError` is modelled as `Except.error`. -/
def compare (send_amount : ℚ) (from_currency to_currency : String)
    (providers : Option (List String)) (mid_rate : ℚ) : Except String Comparison :=
  if mid_rate ≤ 0 then
    Except.error ("Could not get exchange rate for " ++ from_currency ++ "→" ++ to_currency)
  else
    Except.ok {
      send_currency := from_currency
      receive_currency := to_currency
      send_amount := send_amount
      mid_market_rate := mid_rate
      quotes := quotesFor send_amount from_currency to_currency mid_rate
        (active_providers providers) }

/-! ## Helper lemmas about `roundTo` and the fold-based min/max -/

theorem roundTo_nonneg (n : ℕ) {x : ℚ} (hx : 0 ≤ x) : 0 ≤ roundTo n x := by
  unfold roundTo
  apply div_nonneg _ (by positivity)
  have h : (0 : ℤ) ≤ round (x * 10 ^ n) := by
    rw [round_eq]
    exact Int.floor_nonneg.2 (by positivity)
  exact_mod_cast h

theorem roundTo_le_add (n : ℕ) (x : ℚ) : roundTo n x ≤ x + 1 / (2 * 10 ^ n) := by
  unfold roundTo
  rw [div_le_iff₀ (by positivity : (0:ℚ) < 10 ^ n)]
  have h := round_le_add_half (x * 10 ^ n)
  have h2 : (x + 1 / (2 * 10 ^ n)) * 10 ^ n = x * 10 ^ n + 1 / 2 := by
    field_simp
    ring
  linarith

theorem roundTo_eq_zero (n : ℕ) {x : ℚ} (h0 : 0 ≤ x) (h1 : x < 1 / (2 * 10 ^ n)) :
    roundTo n x = 0 := by
  unfold roundTo
  have h : round (x * 10 ^ n) = 0 := by
    rw [round_eq]
    apply Int.floor_eq_zero_iff.2
    constructor
    · positivity
    · have h2 : x * 10 ^ n < 1 / 2 := by
        have h3 : x * 10 ^ n < (1 / (2 * 10 ^ n)) * 10 ^ n :=
          mul_lt_mul_of_pos_right h1 (by positivity)
        have h4 : (1 / (2 * 10 ^ n) : ℚ) * 10 ^ n = 1 / 2 := by
          field_simp
          ring
        linarith
      linarith
  rw [h]
  simp

theorem foldl_minByKey_spec {α β : Type} [LinearOrder β] (k : α → β) (xs : List α) (b : α) :
    (xs.foldl (fun best y => if k y < k best then y else best) b = b ∨
      xs.foldl (fun best y => if k y < k best then y else best) b ∈ xs) ∧
    k (xs.foldl (fun best y => if k y < k best then y else best) b) ≤ k b ∧
    ∀ y ∈ xs, k (xs.foldl (fun best y => if k y < k best then y else best) b) ≤ k y := by
  induction xs generalizing b with
  | nil => simp
  | cons x xs ih =>
    simp only [List.foldl_cons]
    by_cases h : k x < k b
    · rw [if_pos h]
      obtain ⟨hmem, hle, hall⟩ := ih x
      refine ⟨?_, le_trans hle (le_of_lt h), ?_⟩
      · rcases hmem with h' | h'
        · exact Or.inr (by simp [h'])
        · exact Or.inr (List.mem_cons_of_mem _ h')
      · intro y hy
        rcases List.mem_cons.1 hy with rfl | hy'
        · exact hle
        · exact hall y hy'
    · rw [if_neg h]
      obtain ⟨hmem, hle, hall⟩ := ih b
      refine ⟨?_, hle, ?_⟩
      · rcases hmem with h' | h'
        · exact Or.inl h'
        · exact Or.inr (List.mem_cons_of_mem _ h')
      · intro y hy
        rcases List.mem_cons.1 hy with rfl | hy'
        · exact le_trans hle (not_lt.1 h)
        · exact hall y hy'

theorem minByKey_spec {α β : Type} [LinearOrder β] (k : α → β) (l : List α) (h : l ≠ []) :
    ∃ x, minByKey k l = some x ∧ x ∈ l ∧ ∀ y ∈ l, k x ≤ k y := by
  match l with
  | [] => exact absurd rfl h
  | a :: as =>
    obtain ⟨hmem, hle, hall⟩ := foldl_minByKey_spec k as a
    refine ⟨_, rfl, ?_, ?_⟩
    · rcases hmem with h' | h'
      · rw [h']; exact List.mem_cons_self a as
      · exact List.mem_cons_of_mem _ h'
    · intro y hy
      rcases List.mem_cons.1 hy with rfl | hy'
      · exact hle
      · exact hall y hy'

theorem foldl_maxByKey_spec {α β : Type} [LinearOrder β] (k : α → β) (xs : List α) (b : α) :
    (xs.foldl (fun best y => if k best < k y then y else best) b = b ∨
      xs.foldl (fun best y => if k best < k y then y else best) b ∈ xs) ∧
    k b ≤ k (xs.foldl (fun best y => if k best < k y then y else best) b) ∧
    ∀ y ∈ xs, k y ≤ k (xs.foldl (fun best y => if k best < k y then y else best) b) := by
  induction xs generalizing b with
  | nil => simp
  | cons x xs ih =>
    simp only [List.foldl_cons]
    by_cases h : k b < k x
    · rw [if_pos h]
      obtain ⟨hmem, hle, hall⟩ := ih x
      refine ⟨?_, le_trans (le_of_lt h) hle, ?_⟩
      · rcases hmem with h' | h'
        · exact Or.inr (by simp [h'])
        · exact Or.inr (List.mem_cons_of_mem _ h')
      · intro y hy
        rcases List.mem_cons.1 hy with rfl | hy'
        · exact hle
        · exact hall y hy'
    · rw [if_neg h]
      obtain ⟨hmem, hle, hall⟩ := ih b
      refine ⟨?_, hle, ?_⟩
      · rcases hmem with h' | h'
        · exact Or.inl h'
        · exact Or.inr (List.mem_cons_of_mem _ h')
      · intro y hy
        rcases List.mem_cons.1 hy with rfl | hy'
        · exact le_trans (not_lt.1 h) hle
        · exact hall y hy'

theorem maxByKey_spec {α β : Type} [LinearOrder β] (k : α → β) (l : List α) (h : l ≠ []) :
    ∃ x, maxByKey k l = some x ∧ x ∈ l ∧ ∀ y ∈ l, k y ≤ k x := by
  match l with
  | [] => exact absurd rfl h
  | a :: as =>
    obtain ⟨hmem, hle, hall⟩ := foldl_maxByKey_spec k as a
    refine ⟨_, rfl, ?_, ?_⟩
    · rcases hmem with h' | h'
      · rw [h']; exact List.mem_cons_self a as
      · exact List.mem_cons_of_mem _ h'
    · intro y hy
      rcases List.mem_cons.1 hy with rfl | hy'
      · exact hle
      · exact hall y hy'

/-! ## C2: the true-cost formula -/

/-- The spec's formula for the true cost percentage, written from the
spec's words: `round(fee/sendAmount*100 + spread_percent, 2)` with the
`fee/sendAmount` term treated as `0` when `sendAmount ≤ 0`. -/
def trueCostSpecFormula (q : Quote) : ℚ :=
  roundTo 2 ((if q.send_amount ≤ 0 then 0 else q.fee / q.send_amount * 100) + q.spread_percent)

/-- C2: for every Quote, `true_cost_percent` equals
`round(fee/send_amount*100 + spread_percent, 2)`, with the
`fee/send_amount` term treated as 0 when `send_amount ≤ 0`. -/
theorem true_cost_percent_eq_spec (q : Quote) :
    q.true_cost_percent = trueCostSpecFormula q := by
  unfold Quote.true_cost_percent trueCostSpecFormula
  by_cases h : 0 < q.send_amount
  · simp [h, not_le.2 h]
  · simp [h, not_lt.1 h]

/-- A concrete sample quote: send 200 USD, fee 4, spread 1.5 %. -/
def sampleQuote : Quote := {
  provider := "P"
  send_currency := "USD"
  receive_currency := "KES"
  send_amount := 200
  receive_amount := 25000
  fee := 4
  exchange_rate := 127
  mid_market_rate := 129.5
  spread_percent := 1.5
  transfer_time := "minutes"
  delivery_method := "M-Pesa" }

/-- C2 witness: the formula evaluated on a concrete quote. -/
theorem true_cost_percent_eq_spec_witness :
    sampleQuote.true_cost_percent = trueCostSpecFormula sampleQuote :=
  true_cost_percent_eq_spec _

/-! ## C5: the effective rate -/

/-- C5 counterexample quote: send 3, fee 0, receive 100, so the effective
rate is `100/3`, whose 2-decimal and 4-decimal roundings differ. -/
def cexQuoteC5 : Quote := {
  provider := "P"
  send_currency := "USD"
  receive_currency := "KES"
  send_amount := 3
  receive_amount := 100
  fee := 0
  exchange_rate := 0
  mid_market_rate := 0
  spread_percent := 0
  transfer_time := "instant"
  delivery_method := "M-Pesa" }

/-- C5 counterexample: `kes_per_dollar_effective` is NOT the 4-decimal
rounding of `receive_amount / (send_amount - fee)`: on a quote with
send 3, fee 0, receive 100 the code yields `33.33` (2-decimal rounding),
not `33.3333`. -/
theorem kes_per_dollar_effective_not_4dp :
    cexQuoteC5.kes_per_dollar_effective ≠
        roundTo 4 (cexQuoteC5.receive_amount / (cexQuoteC5.send_amount - cexQuoteC5.fee)) ∧
      cexQuoteC5.kes_per_dollar_effective = 33.33 ∧
      roundTo 4 (cexQuoteC5.receive_amount / (cexQuoteC5.send_amount - cexQuoteC5.fee)) =
        33.3333 := by
  norm_num [cexQuoteC5, Quote.kes_per_dollar_effective, roundTo, round_eq]

/-- C5 (amended): `kes_per_dollar_effective` equals
`receive_amount / (send_amount - fee)` rounded to 2 decimals (not 4),
with a non-positive send amount or a non-positive denominator guarded by
returning 0. -/
theorem kes_per_dollar_effective_eq_spec (q : Quote) :
    q.kes_per_dollar_effective =
      if q.send_amount ≤ 0 ∨ q.send_amount - q.fee ≤ 0 then 0
      else roundTo 2 (q.receive_amount / (q.send_amount - q.fee)) := by
  unfold Quote.kes_per_dollar_effective
  by_cases h1 : q.send_amount ≤ 0
  · simp [h1]
  · by_cases h2 : q.send_amount - q.fee ≤ 0
    · simp [h1, h2, not_lt.2 h2]
    · simp [h1, h2, not_le.1 h2]

/-- C5 witness: the amended characterisation evaluated on the concrete
counterexample quote. -/
theorem kes_per_dollar_effective_eq_spec_witness :
    cexQuoteC5.kes_per_dollar_effective =
      if cexQuoteC5.send_amount ≤ 0 ∨ cexQuoteC5.send_amount - cexQuoteC5.fee ≤ 0 then 0
      else roundTo 2 (cexQuoteC5.receive_amount / (cexQuoteC5.send_amount - cexQuoteC5.fee)) :=
  kes_per_dollar_effective_eq_spec _

/-! ## C1: the single error condition of `compare` -/

/-- C1: `compare` returns the "unavailable rate" error exactly when the
resolved mid-market rate is ≤ 0; when the rate is positive it returns a
`Comparison` and never raises. -/
theorem compare_error_iff (send_amount : ℚ) (from_currency to_currency : String)
    (providers : Option (List String)) (mid_rate : ℚ) :
    ((∃ msg, compare send_amount from_currency to_currency providers mid_rate =
        Except.error msg) ↔ mid_rate ≤ 0) ∧
    ((∃ c, compare send_amount from_currency to_currency providers mid_rate =
        Except.ok c) ↔ 0 < mid_rate) := by
  unfold compare
  by_cases h : mid_rate ≤ 0
  · simp [h, not_lt.2 h]
  · simp [h, not_le.1 h]

/-- C1 witness: at rate 0 the error is raised; at the fallback USD rate
129.5 a comparison is returned. -/
theorem compare_error_iff_witness :
    ((∃ msg, compare 200 "USD" "KES" none 0 = Except.error msg) ↔ (0:ℚ) ≤ 0) ∧
    ((∃ c, compare 200 "USD" "KES" none 0 = Except.ok c) ↔ (0:ℚ) < 0) :=
  compare_error_iff 200 "USD" "KES" none 0

/-! ## C9 and C10: provider-subset handling -/

theorem buildQuote_provider (name : String) (p : ProviderProfile) (send_amount : ℚ)
    (from_currency to_currency : String) (mid_rate : ℚ) :
    (buildQuote name p send_amount from_currency to_currency mid_rate).provider = name := rfl

theorem compare_ok (send_amount : ℚ) (from_currency to_currency : String)
    (providers : Option (List String)) (mid_rate : ℚ) (hmr : 0 < mid_rate) :
    compare send_amount from_currency to_currency providers mid_rate = Except.ok {
      send_currency := from_currency
      receive_currency := to_currency
      send_amount := send_amount
      mid_market_rate := mid_rate
      quotes := quotesFor send_amount from_currency to_currency mid_rate
        (active_providers providers) } := by
  unfold compare
  rw [if_neg (not_le.2 hmr)]

theorem map_provider_quotesFor (send_amount : ℚ) (from_currency to_currency : String)
    (mid_rate : ℚ) (l : List String) :
    (quotesFor send_amount from_currency to_currency mid_rate l).map (fun q => q.provider) =
      l.filter fun n => (PROVIDER_PROFILES.lookup n).isSome := by
  induction l with
  | nil => rfl
  | cons x xs ih =>
    unfold quotesFor at ih ⊢
    cases h : PROVIDER_PROFILES.lookup x <;>
      simp [List.filterMap_cons, List.filter_cons, h, ih, buildQuote_provider]

/-- C9: for a non-empty caller-supplied provider list and a positive
resolved rate, `compare` raises no error and returns exactly one quote
per listed name present in the catalog, silently dropping unknown
names. -/
theorem compare_provider_subset (send_amount : ℚ) (from_currency to_currency : String)
    (l : List String) (mid_rate : ℚ) (hl : l ≠ []) (hmr : 0 < mid_rate) :
    ∃ c, compare send_amount from_currency to_currency (some l) mid_rate = Except.ok c ∧
      c.quotes.map (fun q => q.provider) =
        l.filter (fun n => (PROVIDER_PROFILES.lookup n).isSome) := by
  refine ⟨_, compare_ok send_amount from_currency to_currency (some l) mid_rate hmr, ?_⟩
  rw [show active_providers (some l) = l by simp [active_providers, hl]]
  exact map_provider_quotesFor send_amount from_currency to_currency mid_rate l

/-- C9 witness: an unrecognized name alongside valid ones yields quotes
exactly for the valid ones, with no error. -/
theorem compare_provider_subset_witness :
    (["Wise", "Bogus", "Sendwave"] : List String) ≠ [] ∧ (0:ℚ) < 129.5 ∧
    ∃ c, compare 200 "USD" "KES" (some ["Wise", "Bogus", "Sendwave"]) 129.5 = Except.ok c ∧
      c.quotes.map (fun q => q.provider) =
        (["Wise", "Bogus", "Sendwave"] : List String).filter
          (fun n => (PROVIDER_PROFILES.lookup n).isSome) :=
  ⟨by simp, by norm_num,
    compare_provider_subset 200 "USD" "KES" ["Wise", "Bogus", "Sendwave"] 129.5
      (by simp) (by norm_num)⟩

/-- C10: an explicitly empty provider list falls back to the full catalog
(Python's falsy `providers or ...`): one quote per catalog provider, 7
quotes, identical to calling `compare` with no subset at all. -/
theorem compare_empty_providers (send_amount : ℚ) (from_currency to_currency : String)
    (mid_rate : ℚ) (hmr : 0 < mid_rate) :
    ∃ c, compare send_amount from_currency to_currency (some []) mid_rate = Except.ok c ∧
      c.quotes.map (fun q => q.provider) =
        ["Wise", "Remitly", "WorldRemit", "Western Union", "Sendwave", "Mukuru", "LemFi"] ∧
      c.quotes.length = 7 ∧
      compare send_amount from_currency to_currency (some []) mid_rate =
        compare send_amount from_currency to_currency none mid_rate := by
  have hactive : active_providers (some []) = active_providers none := rfl
  have hmap : (quotesFor send_amount from_currency to_currency mid_rate
      (active_providers (some []))).map (fun q => q.provider) =
      ["Wise", "Remitly", "WorldRemit", "Western Union", "Sendwave", "Mukuru", "LemFi"] := by
    rw [map_provider_quotesFor]
    rfl
  refine ⟨_, compare_ok send_amount from_currency to_currency (some []) mid_rate hmr, hmap, ?_, ?_⟩
  · have h := congrArg List.length hmap
    rw [List.length_map] at h
    exact h
  · rw [compare_ok send_amount from_currency to_currency (some []) mid_rate hmr,
      compare_ok send_amount from_currency to_currency none mid_rate hmr, hactive]

/-- C10 witness: the fallback at a concrete amount and rate. -/
theorem compare_empty_providers_witness :
    (0:ℚ) < 129.5 ∧
    ∃ c, compare 200 "USD" "KES" (some []) 129.5 = Except.ok c ∧
      c.quotes.map (fun q => q.provider) =
        ["Wise", "Remitly", "WorldRemit", "Western Union", "Sendwave", "Mukuru", "LemFi"] ∧
      c.quotes.length = 7 ∧
      compare 200 "USD" "KES" (some []) 129.5 = compare 200 "USD" "KES" none 129.5 :=
  ⟨by norm_num, compare_empty_providers 200 "USD" "KES" 129.5 (by norm_num)⟩

/-! ## C7, C6, C8: the derived ranking views -/

/-- A second sample quote: higher receive amount, slower, bank-only. -/
def sampleQuote2 : Quote := {
  provider := "Q"
  send_currency := "USD"
  receive_currency := "KES"
  send_amount := 200
  receive_amount := 26000
  fee := 0
  exchange_rate := 128.85
  mid_market_rate := 129.5
  spread_percent := 0.5
  transfer_time := "1-3 days"
  delivery_method := "Bank deposit" }

/-- A concrete two-quote comparison. -/
def sampleComparison : Comparison := {
  send_currency := "USD"
  receive_currency := "KES"
  send_amount := 200
  mid_market_rate := 129.5
  quotes := [sampleQuote, sampleQuote2] }

/-- A concrete comparison with no quotes. -/
def emptyComparison : Comparison := {
  send_currency := "USD"
  receive_currency := "KES"
  send_amount := 200
  mid_market_rate := 129.5
  quotes := [] }

/-- C7: on a non-empty quote list `best_rate` returns a quote with
maximal `receive_amount`; on an empty quote list `best_rate`, `fastest`
and `most_trusted` all return `None`. -/
theorem best_rate_spec :
    (∀ c : Comparison, c.quotes ≠ [] →
      ∃ q, c.best_rate = some q ∧ q ∈ c.quotes ∧
        ∀ q' ∈ c.quotes, q'.receive_amount ≤ q.receive_amount) ∧
    (∀ c : Comparison, c.quotes = [] →
      c.best_rate = none ∧ c.fastest = none ∧ c.most_trusted = none) := by
  constructor
  · intro c hc
    obtain ⟨q, hq, hmem, hall⟩ := maxByKey_spec (fun q => q.receive_amount) c.quotes hc
    refine ⟨q, ?_, hmem, hall⟩
    unfold Comparison.best_rate
    rw [if_neg (by simp [hc]), hq]
  · intro c hc
    refine ⟨?_, ?_, ?_⟩ <;>
      simp [Comparison.best_rate, Comparison.fastest, Comparison.most_trusted, hc]

/-- C7 witness: both parts at concrete comparisons. -/
theorem best_rate_spec_witness :
    (sampleComparison.quotes ≠ [] ∧
      ∃ q, sampleComparison.best_rate = some q ∧ q ∈ sampleComparison.quotes ∧
        ∀ q' ∈ sampleComparison.quotes, q'.receive_amount ≤ q.receive_amount) ∧
    (emptyComparison.quotes = [] ∧
      emptyComparison.best_rate = none ∧ emptyComparison.fastest = none ∧
        emptyComparison.most_trusted = none) :=
  ⟨⟨by simp [sampleComparison], best_rate_spec.1 sampleComparison (by simp [sampleComparison])⟩,
    ⟨rfl, best_rate_spec.2 emptyComparison rfl⟩⟩

/-- C6: on a non-empty quote list `fastest` returns a quote minimal under
`timeOrder`, and `timeOrder` realises the fixed total order
instant < minutes < "1-3 hours" < "hours" < "1-3 days" < "days" < any
unrecognized bucket (which maps to 99 and sorts last). -/
theorem fastest_spec :
    (∀ c : Comparison, c.quotes ≠ [] →
      ∃ q, c.fastest = some q ∧ q ∈ c.quotes ∧
        ∀ q' ∈ c.quotes, timeOrder q.transfer_time ≤ timeOrder q'.transfer_time) ∧
    (timeOrder "instant" < timeOrder "minutes" ∧
      timeOrder "minutes" < timeOrder "1-3 hours" ∧
      timeOrder "1-3 hours" < timeOrder "hours" ∧
      timeOrder "hours" < timeOrder "1-3 days" ∧
      timeOrder "1-3 days" < timeOrder "days" ∧
      ∀ t, t ≠ "instant" → t ≠ "minutes" → t ≠ "1-3 hours" → t ≠ "hours" →
        t ≠ "1-3 days" → t ≠ "days" → timeOrder t = 99 ∧ timeOrder "days" < timeOrder t) := by
  constructor
  · intro c hc
    obtain ⟨q, hq, hmem, hall⟩ := minByKey_spec (fun q => timeOrder q.transfer_time) c.quotes hc
    refine ⟨q, ?_, hmem, hall⟩
    unfold Comparison.fastest
    rw [if_neg (by simp [hc]), hq]
  · refine ⟨by decide, by decide, by decide, by decide, by decide, ?_⟩
    intro t h1 h2 h3 h4 h5 h6
    constructor <;> simp [timeOrder, h1, h2, h3, h4, h5, h6]

/-- C6 witness: the minimality part at a concrete comparison. -/
theorem fastest_spec_witness :
    sampleComparison.quotes ≠ [] ∧
    ∃ q, sampleComparison.fastest = some q ∧ q ∈ sampleComparison.quotes ∧
      ∀ q' ∈ sampleComparison.quotes,
        timeOrder q.transfer_time ≤ timeOrder q'.transfer_time :=
  ⟨by simp [sampleComparison], fastest_spec.1 sampleComparison (by simp [sampleComparison])⟩

/-- C8: `most_trusted` selects, among quotes whose delivery text contains
the channel `"M-Pesa"` (the source's substring test on the joined
delivery list), one with minimal `true_cost_percent`; when no quote
matches, it returns exactly `best_rate`. -/
theorem most_trusted_spec (c : Comparison) :
    (c.quotes.filter (fun q => strContains q.delivery_method "M-Pesa") = [] →
      c.most_trusted = c.best_rate) ∧
    (c.quotes.filter (fun q => strContains q.delivery_method "M-Pesa") ≠ [] →
      ∃ q, c.most_trusted = some q ∧ q ∈ c.quotes ∧
        strContains q.delivery_method "M-Pesa" = true ∧
        ∀ q' ∈ c.quotes, strContains q'.delivery_method "M-Pesa" = true →
          q.true_cost_percent ≤ q'.true_cost_percent) := by
  constructor
  · intro hnil
    unfold Comparison.most_trusted
    rw [hnil]
    rfl
  · intro hne
    obtain ⟨q, hq, hmem, hall⟩ :=
      minByKey_spec (fun q => q.true_cost_percent)
        (c.quotes.filter (fun q => strContains q.delivery_method "M-Pesa")) hne
    obtain ⟨hmem', hpred⟩ := List.mem_filter.1 hmem
    refine ⟨q, ?_, hmem', hpred, ?_⟩
    · unfold Comparison.most_trusted
      rw [if_neg (by simp [hne]), hq]
    · intro q' hq' hpred'
      exact hall q' (List.mem_filter.2 ⟨hq', hpred'⟩)

/-- C8 witness: both branches at concrete comparisons (the two-quote
sample has an M-Pesa quote; the empty comparison has none). -/
theorem most_trusted_spec_witness :
    ((emptyComparison.quotes.filter
        (fun q => strContains q.delivery_method "M-Pesa") = []) ∧
      emptyComparison.most_trusted = emptyComparison.best_rate) ∧
    ((sampleComparison.quotes.filter
        (fun q => strContains q.delivery_method "M-Pesa") ≠ []) ∧
      ∃ q, sampleComparison.most_trusted = some q ∧ q ∈ sampleComparison.quotes ∧
        strContains q.delivery_method "M-Pesa" = true ∧
        ∀ q' ∈ sampleComparison.quotes, strContains q'.delivery_method "M-Pesa" = true →
          q.true_cost_percent ≤ q'.true_cost_percent) :=
  ⟨⟨rfl, (most_trusted_spec emptyComparison).1 rfl⟩,
    ⟨by decide, (most_trusted_spec sampleComparison).2 (by decide)⟩⟩

/-! ## C4: `ranked()` sorts ascending by true cost and is stable -/

instance : IsTotal Quote costLE := ⟨fun a b => le_total a.true_cost_percent b.true_cost_percent⟩

instance : IsTrans Quote costLE := ⟨fun _ _ _ h1 h2 => le_trans h1 h2⟩

/-- C4: `ranked()` is a permutation of the quotes, sorted ascending by
`true_cost_percent`, and stable: for every cost value `v`, the quotes of
cost `v` appear in `ranked()` exactly in their original input order. -/
theorem ranked_spec (c : Comparison) (v : ℚ) :
    c.ranked.Perm c.quotes ∧ List.Sorted costLE c.ranked ∧
      c.ranked.filter (fun q => decide (q.true_cost_percent = v)) =
        c.quotes.filter (fun q => decide (q.true_cost_percent = v)) := by
  refine ⟨List.perm_insertionSort costLE c.quotes, List.sorted_insertionSort costLE c.quotes, ?_⟩
  set p : Quote → Bool := fun q => decide (q.true_cost_percent = v) with hp
  have hpair : (c.quotes.filter p).Pairwise costLE := by
    apply List.pairwise_of_forall_mem_list
    intro a ha b hb
    have ha' := (List.mem_filter.1 ha).2
    have hb' := (List.mem_filter.1 hb).2
    rw [hp] at ha' hb'
    simp only [decide_eq_true_eq] at ha' hb'
    unfold costLE
    rw [ha', hb']
  have hsub : List.Sublist (c.quotes.filter p) (List.insertionSort costLE c.quotes) :=
    List.sublist_insertionSort hpair (List.filter_sublist c.quotes)
  have hsub2 : List.Sublist (c.quotes.filter p)
      ((List.insertionSort costLE c.quotes).filter p) := by
    have h := hsub.filter p
    rwa [List.filter_filter, show (fun a => p a && p a) = p by
      funext a
      rw [Bool.and_self]] at h
  have hlen : ((List.insertionSort costLE c.quotes).filter p).length =
      (c.quotes.filter p).length :=
    ((List.perm_insertionSort costLE c.quotes).filter p).length_eq
  exact (hsub2.eq_of_length hlen.symm).symm

/-- C4 witness: the three conjuncts at a concrete comparison and value. -/
theorem ranked_spec_witness :
    sampleComparison.ranked.Perm sampleComparison.quotes ∧
      List.Sorted costLE sampleComparison.ranked ∧
      sampleComparison.ranked.filter (fun q => decide (q.true_cost_percent = 3.5)) =
        sampleComparison.quotes.filter (fun q => decide (q.true_cost_percent = 3.5)) :=
  ranked_spec sampleComparison 3.5

/-! ## C3: sign and vanishing of the receive amount -/

theorem roundTo_zero (n : ℕ) : roundTo n 0 = 0 := by
  unfold roundTo
  simp

theorem roundTo2_le_add (x : ℚ) : roundTo 2 x ≤ x + 1 / 200 := by
  have h := roundTo_le_add 2 x
  calc roundTo 2 x ≤ x + 1 / (2 * 10 ^ 2) := h
    _ = x + 1 / 200 := by norm_num

theorem roundTo2_eq_zero {x : ℚ} (h0 : 0 ≤ x) (h1 : x < 1 / 200) : roundTo 2 x = 0 :=
  roundTo_eq_zero 2 h0 (by
    calc x < 1 / 200 := h1
      _ = 1 / (2 * 10 ^ 2) := by norm_num)

theorem lookup_mem {α β : Type} [BEq α] {l : List (α × β)} {a : α} {b : β}
    (h : l.lookup a = some b) : b ∈ l.map Prod.snd := by
  induction l with
  | nil => simp [List.lookup] at h
  | cons x xs ih =>
    obtain ⟨k, v⟩ := x
    rw [List.lookup_cons] at h
    cases hk : a == k with
    | true => rw [hk] at h; simp at h; simp [h]
    | false => rw [hk] at h; simp at h; exact List.mem_cons_of_mem _ (ih h)

theorem buildQuote_receive (name : String) (p : ProviderProfile) (sa : ℚ)
    (fc tc : String) (mr : ℚ) :
    (buildQuote name p sa fc tc mr).receive_amount =
      roundTo 2 (if 0 < sa - feeOf p sa
        then (sa - feeOf p sa) * (mr * (1 - p.spread_pct / 100)) else 0) := rfl

theorem buildQuote_fee (name : String) (p : ProviderProfile) (sa : ℚ)
    (fc tc : String) (mr : ℚ) :
    (buildQuote name p sa fc tc mr).fee = roundTo 2 (feeOf p sa) := rfl

theorem buildQuote_send_amount (name : String) (p : ProviderProfile) (sa : ℚ)
    (fc tc : String) (mr : ℚ) :
    (buildQuote name p sa fc tc mr).send_amount = sa := rfl

theorem receive_nonneg_aux (net rate : ℚ) (hrate : 0 ≤ rate) :
    0 ≤ roundTo 2 (if 0 < net then net * rate else 0) := by
  by_cases h : 0 < net
  · rw [if_pos h]
    exact roundTo_nonneg 2 (mul_nonneg h.le hrate)
  · rw [if_neg h, roundTo_zero]

theorem receive_zero_of_net_nonpos (net rate : ℚ) (h : net ≤ 0) :
    roundTo 2 (if 0 < net then net * rate else 0) = 0 := by
  rw [if_neg (not_lt.2 h), roundTo_zero]

/-- A percent-type fee `sa * cc` with `0 < cc < 1/2` that rounds (at 2
decimals) to at least `sa` forces a contradiction with a positive raw
net send: the send amount would have to be at most half a cent while the
rounded fee is a positive multiple of a cent. -/
theorem percent_contra (sa cc : ℚ) (hc0 : 0 < cc) (hc1 : cc < 1 / 2)
    (hpos : 0 < sa - sa * cc) (hst : sa - roundTo 2 (sa * cc) ≤ 0) : False := by
  have hsa : 0 < sa := by nlinarith
  have h2 := roundTo2_le_add (sa * cc)
  have h3 : sa - sa * cc ≤ 1 / 200 := by linarith
  have hsc : sa * cc < sa * (1 / 2) := by
    exact mul_lt_mul_of_pos_left hc1 hsa
  have h4 : sa * cc < 1 / 200 := by linarith
  have h5 : roundTo 2 (sa * cc) = 0 := roundTo2_eq_zero (by positivity) h4
  rw [h5] at hst
  linarith

/-- The two receive-amount conjuncts for one built quote, given the facts
that every catalog profile satisfies. -/
theorem buildQuote_recv_conj (name : String) (p : ProviderProfile) (sa : ℚ)
    (fc tc : String) (mr : ℚ) (hmr : 0 < mr) (hspread : p.spread_pct ≤ 100)
    (hfee : roundTo 2 (feeOf p sa) = feeOf p sa ∨
      ∃ cc, 0 < cc ∧ cc < 1 / 2 ∧ feeOf p sa = sa * cc) :
    0 ≤ (buildQuote name p sa fc tc mr).receive_amount ∧
      ((buildQuote name p sa fc tc mr).send_amount - (buildQuote name p sa fc tc mr).fee ≤ 0 →
        (buildQuote name p sa fc tc mr).receive_amount = 0) := by
  rw [buildQuote_receive, buildQuote_fee, buildQuote_send_amount]
  have hrate : 0 ≤ mr * (1 - p.spread_pct / 100) := by
    apply mul_nonneg hmr.le
    linarith
  constructor
  · exact receive_nonneg_aux _ _ hrate
  · intro hst
    by_cases hnet : 0 < sa - feeOf p sa
    · exfalso
      rcases hfee with hex | ⟨cc, hc0, hc1, hcc⟩
      · rw [hex] at hst
        linarith
      · rw [hcc] at hst hnet
        exact percent_contra sa cc hc0 hc1 hnet hst
    · exact receive_zero_of_net_nonpos _ _ (not_lt.1 hnet)

/-- Every catalog profile has spread at most 100 % and a fee that is
either already exact at 2 decimals or a percent fee `sa * cc` with
`0 < cc < 1/2`. -/
theorem profile_facts (name : String) (p : ProviderProfile) (sa : ℚ)
    (h : PROVIDER_PROFILES.lookup name = some p) :
    p.spread_pct ≤ 100 ∧
      (roundTo 2 (feeOf p sa) = feeOf p sa ∨
        ∃ cc, 0 < cc ∧ cc < 1 / 2 ∧ feeOf p sa = sa * cc) := by
  have hp := lookup_mem h
  simp only [PROVIDER_PROFILES, List.map_cons, List.map_nil, List.mem_cons,
    List.mem_singleton, List.not_mem_nil, or_false] at hp
  rcases hp with rfl | rfl | rfl | rfl | rfl | rfl | rfl
  · exact ⟨by norm_num, Or.inr ⟨41 / 10000, by norm_num, by norm_num, by
      simp [feeOf]
      ring⟩⟩
  · refine ⟨by norm_num, Or.inl ?_⟩
    simp [feeOf, roundTo, round_eq]
    norm_num
  · refine ⟨by norm_num, Or.inl ?_⟩
    simp [feeOf, roundTo, round_eq]
    norm_num
  · refine ⟨by norm_num, Or.inl ?_⟩
    simp [feeOf, roundTo, round_eq]
    norm_num
  · refine ⟨by norm_num, Or.inl ?_⟩
    simp [feeOf, roundTo_zero]
  · refine ⟨by norm_num, Or.inl ?_⟩
    simp [feeOf, roundTo, round_eq]
    norm_num
  · exact ⟨by norm_num, Or.inr ⟨1 / 200, by norm_num, by norm_num, by
      simp [feeOf]
      ring⟩⟩

/-- C3 (amended): every quote produced by `compare` under a positive
resolved rate has `receive_amount ≥ 0`, and `receive_amount = 0` whenever
`send_amount - fee ≤ 0`; the converse direction of the original claim
(`receive_amount = 0` only when `send_amount - fee ≤ 0`) is false, see
the counterexample. -/
theorem compare_receive_nonneg (sa : ℚ) (fc tc : String) (prov : Option (List String))
    (mr : ℚ) (hmr : 0 < mr) (c : Comparison)
    (hc : compare sa fc tc prov mr = Except.ok c) :
    ∀ q ∈ c.quotes, 0 ≤ q.receive_amount ∧
      (q.send_amount - q.fee ≤ 0 → q.receive_amount = 0) := by
  rw [compare_ok sa fc tc prov mr hmr] at hc
  injection hc with hc
  subst hc
  intro q hq
  unfold quotesFor at hq
  rw [List.mem_filterMap] at hq
  obtain ⟨name, _, hq⟩ := hq
  rw [Option.map_eq_some'] at hq
  obtain ⟨p, hlk, hbq⟩ := hq
  subst hbq
  obtain ⟨hspread, hfee⟩ := profile_facts name p sa hlk
  exact buildQuote_recv_conj name p sa fc tc mr hmr hspread hfee

/-- C3 witness: the amended claim at a concrete comparison (200 USD at
rate 129.5 over the whole catalog). -/
theorem compare_receive_nonneg_witness :
    (0:ℚ) < 129.5 ∧
    ∀ q ∈ (Comparison.mk "USD" "KES" 200 129.5
        (quotesFor 200 "USD" "KES" 129.5 (active_providers none))).quotes,
      0 ≤ q.receive_amount ∧ (q.send_amount - q.fee ≤ 0 → q.receive_amount = 0) :=
  ⟨by norm_num, compare_receive_nonneg 200 "USD" "KES" none 129.5 (by norm_num) _
    (compare_ok 200 "USD" "KES" none 129.5 (by norm_num))⟩

/-- C3 counterexample: a tiny send amount (0.00001 USD with Sendwave at
rate 129.5) yields a quote with `send_amount - fee > 0` and yet
`receive_amount = 0` (the raw receive amount 0.00128205 rounds to 0 at 2
decimals), refuting the "exactly when" direction of the claim. -/
theorem compare_receive_zero_cex :
    ∃ c, compare (1 / 100000) "USD" "KES" (some ["Sendwave"]) (259 / 2) = Except.ok c ∧
      c.quotes.map (fun q => (q.receive_amount, decide (0 < q.send_amount - q.fee))) =
        [(0, true)] := by
  refine ⟨_, compare_ok (1 / 100000) "USD" "KES" (some ["Sendwave"]) (259 / 2)
    (by norm_num), ?_⟩
  show (quotesFor (1 / 100000) "USD" "KES" (259 / 2)
      (active_providers (some ["Sendwave"]))).map _ = _
  simp [quotesFor, active_providers, PROVIDER_PROFILES, List.lookup, buildQuote, feeOf,
    roundTo, round_eq]
  norm_num

end RemitLens
